import Mathlib

/-!
Verification of the RP2040 kernel DVFS core against its specification.

The definitions below are shallow embeddings of the C sources:
machine `uint32_t` arithmetic is `Nat` with explicit `% 2^32` where the C
computation can wrap, hardware probes (`check_sys_clock_khz`,
`set_sys_clock_khz`) are oracle parameters `Nat → Bool`, and flash/ring
buffers are lists or functions.  Each definition names the C function it
embeds.
-/

set_option maxHeartbeats 1000000
set_option maxRecDepth 100000

namespace RP2040

/-- `2^32`, the modulus of `uint32_t` arithmetic. -/
def U32 : Nat := 4294967296

/-- `MIN_KHZ` from `system.h`. -/
def MIN_KHZ : Nat := 125000

/-- `MAX_KHZ` from `system.h`. -/
def MAX_KHZ : Nat := 264000

/-- `RAMP_STEP_KHZ` from `system.c`. -/
def RAMP_STEP_KHZ : Nat := 5000

/-- The value written to `current_voltage_mv` by `vreg_for_khz` in
`system.c` for a given frequency.  `has135` is the `VREG_VOLTAGE_1_35`
build flag: with it the top setpoint is 1350 mV, without it 1300 mV. -/
def vreg_for_khz (has135 : Bool) (khz : Nat) : Nat :=
  if khz > 250000 then (if has135 then 1350 else 1300)
  else if khz > 200000 then 1200
  else 1100

/-- Shared ramp state: the `volatile` globals of `system.c` that
`ramp_step` reads and writes. -/
structure SysState where
  current_khz : Nat
  target_khz : Nat
  current_voltage_mv : Nat
  deriving DecidableEq, Repr

/-- Boot values of the shared globals in `system.c`:
`target_khz = MAX_KHZ`, `current_khz = MIN_KHZ`,
`current_voltage_mv = 1100`. -/
def bootState : SysState :=
  { current_khz := MIN_KHZ, target_khz := MAX_KHZ, current_voltage_mv := 1100 }

/-- The scan loop of `find_achievable_khz` (`system.c`).  `fuel` is the
remaining number of the `for (int i = 0; i < 50; i++)` iterations; each
iteration first consults the hardware validator `check` on `probe`, then
advances `probe` by one kHz in `uint32_t` arithmetic and applies the
source's break conditions.  `none` means the loop gave up. -/
def faLoop (check : Nat → Bool) (up : Bool) (limit : Nat) : Nat → Nat → Option Nat
  | _, 0 => none
  | probe, fuel + 1 =>
    if check probe then some probe
    else if up then
      let p := (probe + 1) % U32
      if p > limit then none else faLoop check up limit p fuel
    else
      if probe = 0 then none
      else
        let p := probe - 1
        if p < limit then none else faLoop check up limit p fuel

/-- `find_achievable_khz` from `system.c`: scan from `candidate` with the
source's `up`/`limit` computation (note `limit = candidate` in the down
direction, exactly as the C reads), falling back to `target` when the
50-iteration loop finds nothing the validator accepts. -/
def find_achievable_khz (check : Nat → Bool) (candidate target : Nat) : Nat :=
  let up := candidate ≤ target
  let limit := if up then target else candidate
  (faLoop check up limit candidate 50).getD target

/-- Externally visible calls made by `ramp_step`, recorded in program
order.  `ramp_step` in `system.c` makes no `pio_idle_notify_freq_change`
call, so the corresponding constructor is never emitted by the embedding;
it exists so that absence is expressible. -/
inductive Event where
  | vregSet (mv : Nat)
  | lockStart
  | setClock (khz : Nat) (ok : Bool)
  | lockEnd
  | dmesg
  | notifyFreqChange (khz : Nat)
  deriving DecidableEq, Repr

/-- The `candidate` computation of `ramp_step` (`system.c`): one
`RAMP_STEP_KHZ` step toward `new_khz` in `uint32_t` arithmetic, clamped
at `new_khz`. -/
def rampCandidate (s : SysState) (new_khz : Nat) : Nat :=
  if s.current_khz < new_khz then
    if (s.current_khz + RAMP_STEP_KHZ) % U32 > new_khz then new_khz
    else (s.current_khz + RAMP_STEP_KHZ) % U32
  else
    if (s.current_khz + (U32 - RAMP_STEP_KHZ)) % U32 < new_khz then new_khz
    else (s.current_khz + (U32 - RAMP_STEP_KHZ)) % U32

/-- The `next_khz` value of `ramp_step`: the candidate resolved through
`find_achievable_khz`. -/
def rampNext (check : Nat → Bool) (s : SysState) (new_khz : Nat) : Nat :=
  find_achievable_khz check (rampCandidate s new_khz) new_khz

/-- `ramp_step` from `system.c`, with `uint32_t` wrap-around made
explicit.  `check` is `check_sys_clock_khz` and `setOk` is
`set_sys_clock_khz`.  Returns the new shared state, the C return value,
and the trace of external calls. -/
def ramp_step (has135 : Bool) (check setOk : Nat → Bool) (s : SysState)
    (new_khz : Nat) : SysState × Bool × List Event :=
  if s.current_khz = new_khz then (s, true, [])
  else
    let stepping_up := s.current_khz < new_khz
    let next_khz := rampNext check s new_khz
    let mvUp := if stepping_up then vreg_for_khz has135 next_khz
                else s.current_voltage_mv
    let ev0 := if stepping_up then [Event.vregSet mvUp] else []
    if setOk next_khz then
      let mv2 := if stepping_up then mvUp else vreg_for_khz has135 next_khz
      ({ current_khz := next_khz, target_khz := s.target_khz,
         current_voltage_mv := mv2 },
       decide (next_khz = new_khz),
       ev0 ++ [Event.lockStart, Event.setClock next_khz true, Event.lockEnd]
           ++ (if stepping_up then [] else [Event.vregSet mv2]))
    else
      ({ current_khz := s.current_khz, target_khz := s.current_khz,
         current_voltage_mv := mvUp },
       true,
       ev0 ++ [Event.lockStart, Event.setClock next_khz false, Event.lockEnd,
               Event.dmesg])

/-- The `while (!ramp_step(new_khz))` loop of `ramp_to` (`system.c`),
with a fuel bound for termination; each successful pass that has not yet
reached the target calls `ramp_step` again. -/
def rampToLoop (has135 : Bool) (check setOk : Nat → Bool) (new_khz : Nat) :
    Nat → SysState → SysState
  | 0, s => s
  | fuel + 1, s =>
    let r := ramp_step has135 check setOk s new_khz
    if r.2.1 then r.1 else rampToLoop has135 check setOk new_khz fuel r.1

/-- `ramp_to` from `system.c`: early return when already at the target,
otherwise clamp the request to `[MIN_KHZ, MAX_KHZ]` and drive
`ramp_step` until it reports the target reached. -/
def ramp_to (has135 : Bool) (check setOk : Nat → Bool) (fuel : Nat)
    (s : SysState) (new_khz : Nat) : SysState :=
  if s.current_khz = new_khz then s
  else
    let n1 := if new_khz < MIN_KHZ then MIN_KHZ else new_khz
    let n2 := if n1 > MAX_KHZ then MAX_KHZ else n1
    rampToLoop has135 check setOk n2 fuel s

/-- One call of the ramp API, with the hardware oracles in effect during
that call. -/
inductive RampCall where
  | step (new_khz : Nat) (check setOk : Nat → Bool)
  | toFreq (new_khz : Nat) (check setOk : Nat → Bool) (fuel : Nat)

/-- Execute one ramp API call. -/
def runCall (has135 : Bool) (s : SysState) : RampCall → SysState
  | RampCall.step n check setOk => (ramp_step has135 check setOk s n).1
  | RampCall.toFreq n check setOk fuel => ramp_to has135 check setOk fuel s n

/-- Execute a sequence of ramp API calls from a state. -/
def runCalls (has135 : Bool) (s : SysState) (calls : List RampCall) : SysState :=
  calls.foldl (runCall has135) s

/-- The voltage-safety invariant of the spec: the recorded voltage is at
least the minimum safe voltage (the `vreg_for_khz` table value) for the
recorded frequency. -/
def VoltOK (has135 : Bool) (s : SysState) : Prop :=
  vreg_for_khz has135 s.current_khz ≤ s.current_voltage_mv

instance (has135 : Bool) (s : SysState) : Decidable (VoltOK has135 s) := by
  unfold VoltOK; infer_instance

/-- Requests that keep the `candidate = current_khz + RAMP_STEP_KHZ`
computation of an up-step below `uint32_t` wrap-around.  Every in-range
frequency request satisfies this; `ramp_to` clamps on its own. -/
def ArgOK : RampCall → Prop
  | RampCall.step n _ _ => n + RAMP_STEP_KHZ < U32
  | RampCall.toFreq _ _ _ _ => True

/-- `true` exactly on `notifyFreqChange` events. -/
def Event.isNotify : Event → Bool
  | Event.notifyFreqChange _ => true
  | _ => false

/-- One submitted metric record (`metric_rec_t` in `metrics.c`). -/
structure MetricSample where
  workload : Nat
  intensity : Nat
  duration_ms : Nat
  ts_ms : Nat
  deriving DecidableEq, Repr

/-- The static ring-buffer state of `metrics.c`: `buf`, `head`, `tail`,
`cnt`. -/
structure MetricsState where
  buf : Nat → MetricSample
  head : Nat
  tail : Nat
  cnt : Nat

/-- State after `metrics_init`: zeroed indices, zero-initialised static
array. -/
def metricsInit : MetricsState :=
  { buf := fun _ => ⟨0, 0, 0, 0⟩, head := 0, tail := 0, cnt := 0 }

/-- `metrics_submit` from `metrics.c`: write at `head`, advance `head`
by one modulo 128 (`& (METRICS_BUF_SZ - 1)` on the power-of-two METRICS_BUF_SZ = 128), then
either grow `cnt` or drag `tail` along to overwrite the oldest. -/
def metrics_submit (st : MetricsState) (s : MetricSample) : MetricsState :=
  let head := (st.head + 1) % 128
  { buf := Function.update st.buf st.head s
    head := head
    tail := if st.cnt < 128 then st.tail else head
    cnt := if st.cnt < 128 then st.cnt + 1 else st.cnt }

/-- The records the aggregation loop of `metrics_get_aggregate` visits,
in visit order: starting at `i = tail`, `cnt` iterations of
`r = buf[i]; i = (i + 1) & (METRICS_BUF_SZ - 1)`, so the `n`-th record
read is `buf[(tail + n) % 128]`. -/
def collectList (st : MetricsState) : List MetricSample :=
  (List.range st.cnt).map fun n => st.buf ((st.tail + n) % 128)

/-- `metrics_agg_t` (`metrics.h`): the C `double` averages are modelled
as exact rationals. -/
structure MetricsAgg where
  count : Nat
  avg_workload : ℚ
  avg_intensity : ℚ
  avg_duration_ms : ℚ
  last_ts_ms : Nat
  deriving DecidableEq, Repr

/-- `metrics_get_aggregate` from `metrics.c`: sum the `cnt` records
from `tail`, zero the indices when `clear` is set, and report zeroes
when the buffer was empty.  Returns the filled `out` structure and the
post-call ring state. -/
def metrics_get_aggregate (st : MetricsState) (clear : Bool) :
    MetricsAgg × MetricsState :=
  let recs := collectList st
  let local_cnt := recs.length
  let sum_work := (recs.map MetricSample.workload).sum
  let sum_int := (recs.map MetricSample.intensity).sum
  let sum_dur := (recs.map MetricSample.duration_ms).sum
  let last_ts := recs.foldl (fun _ r => r.ts_ms) 0
  let st' := if clear then { st with head := 0, tail := 0, cnt := 0 } else st
  if local_cnt = 0 then
    ({ count := 0, avg_workload := 0, avg_intensity := 0,
       avg_duration_ms := 0, last_ts_ms := 0 }, st')
  else
    ({ count := local_cnt,
       avg_workload := (sum_work : ℚ) / (local_cnt : ℚ),
       avg_intensity := (sum_int : ℚ) / (local_cnt : ℚ),
       avg_duration_ms := (sum_dur : ℚ) / (local_cnt : ℚ),
       last_ts_ms := last_ts }, st')

/-- Fold a whole sample sequence through `metrics_submit`. -/
def submitAll (st : MetricsState) (l : List MetricSample) : MetricsState :=
  l.foldl metrics_submit st

/-- The ring-buffer representation invariant tying a state to the full
submission history `l`. -/
def MInv (l : List MetricSample) (st : MetricsState) : Prop :=
  st.tail < 128 ∧
  st.cnt = min l.length 128 ∧
  st.head = (st.tail + st.cnt) % 128 ∧
  collectList st = l.drop (l.length - 128)

/-- The proportional-tracking / hysteresis block of `sch_tick`
(`governors_schedutil.c`), acting on an already clamped utilisation
estimate: compute the linear map
`target = MIN_KHZ + (MAX_KHZ - MIN_KHZ) * util / 100` (clamped),
compute `current_target_percent = (target_khz - MIN_KHZ) * 100 /
(MAX_KHZ - MIN_KHZ)` in `uint32_t` arithmetic, and run the source's
condition `target_khz != target && util > ctp + 5 || util < ctp - 5`
(C precedence: `(A && B) || C`; `ctp - 5` wraps below 5).  Returns the
resulting `target_khz`. -/
def sch_target_update (util : Nat) (target_khz : Nat) : Nat :=
  let target0 := MIN_KHZ + (MAX_KHZ - MIN_KHZ) * util / 100
  let target1 := if target0 > MAX_KHZ then MAX_KHZ else target0
  let target2 := if target1 < MIN_KHZ then MIN_KHZ else target1
  let ctp := (target_khz + (U32 - MIN_KHZ)) % U32 * 100 % U32
    / (MAX_KHZ - MIN_KHZ)
  if (target_khz ≠ target2 ∧ util > (ctp + 5) % U32)
      ∨ util < (ctp + (U32 - 5)) % U32
  then target2 else target_khz

/-- `cmd_set` from `commands.c`: `khz = mhz * 1000` in `uint32_t`
arithmetic; reject (leaving `target_khz` unchanged) when out of
`[MIN_KHZ, MAX_KHZ]`, otherwise store it. -/
def cmd_set (mhz : Nat) (target_khz : Nat) : Nat :=
  let khz := mhz * 1000 % U32
  if khz < MIN_KHZ ∨ khz > MAX_KHZ then target_khz else khz

/-- One iteration of `simple_crc` (`persist.c`): `crc = (crc << 7) ^ p[i]`
in `uint32_t` arithmetic. -/
def crcStep (crc b : Nat) : Nat := ((crc * 128) % U32) ^^^ b

/-- `simple_crc` from `persist.c` over a byte list, seed `0xA5A5A5A5`. -/
def simple_crc (l : List Nat) : Nat := l.foldl crcStep 0xA5A5A5A5

/-- Little-endian byte encoding of a `uint32_t`, as it sits in memory on
the ARM target. -/
def le32 (x : Nat) : List Nat :=
  [x % 256, x / 256 % 256, x / 65536 % 256, x / 16777216 % 256]

/-- The 56-byte `name` field of `struct persist_rec` after
`memset(&rec, 0xFF, sizeof rec)` and `strncpy(rec.name, name, 55)`:
the name's bytes, zero padding up to index 54, and the untouched `0xFF`
at index 55. -/
def persistNameField (name : List Nat) : List Nat :=
  name.take 55 ++ List.replicate (55 - name.length) 0 ++ [255]

/-- The first 64 bytes of `struct persist_rec` (everything before the
`crc` field, i.e. `offsetof(struct persist_rec, crc)` bytes): `magic`,
`ver = 1`, `name[56]`. -/
def persistBody (name : List Nat) : List Nat :=
  le32 0x47564F47 ++ le32 1 ++ persistNameField name

/-- The full 68-byte record `persist_save` writes to flash. -/
def persist_save_record (name : List Nat) : List Nat :=
  persistBody name ++ le32 (simple_crc (persistBody name))

/-- Read a little-endian `uint32_t` at byte offset `off`. -/
def dec32 (l : List Nat) (off : Nat) : Nat :=
  l.getD off 0 + 256 * l.getD (off + 1) 0 + 65536 * l.getD (off + 2) 0
    + 16777216 * l.getD (off + 3) 0

/-- `persist_load` from `persist.c` over the raw 68 record bytes:
reject on magic mismatch, reject on CRC mismatch (CRC over the first
`offsetof(..., crc) = 64` bytes), otherwise zero-terminate `name[55]`
and return the name up to its first NUL. -/
def persist_load_rec (rec : List Nat) : Option (List Nat) :=
  if dec32 rec 0 ≠ 0x47564F47 then none
  else if simple_crc (rec.take 64) ≠ dec32 rec 64 then none
  else some (((List.range 56).map fun j =>
    if j = 55 then 0 else rec.getD (8 + j) 0).takeWhile fun b => b != 0)

/-- The voltage table is monotone in the frequency. -/
theorem vreg_for_khz_mono (has135 : Bool) {k k' : Nat} (h : k ≤ k') :
    vreg_for_khz has135 k ≤ vreg_for_khz has135 k' := by
  unfold vreg_for_khz
  rcases has135 with _ | _ <;> split_ifs <;> omega

/-- In the upward direction, a value returned by the scan loop lies in
the probed window `[probe, probe + fuel)`. -/
theorem faLoop_up_some {check : Nat → Bool} {limit : Nat} (hl : limit + 1 < U32) :
    ∀ fuel probe p, probe ≤ limit →
      faLoop check true limit probe fuel = some p → probe ≤ p ∧ p < probe + fuel := by
  intro fuel
  induction fuel with
  | zero => intro probe p _ h; simp [faLoop] at h
  | succ n ih =>
    intro probe p hpl h
    by_cases hc : check probe
    · simp [faLoop, hc] at h
      omega
    · have hmod : (probe + 1) % U32 = probe + 1 := Nat.mod_eq_of_lt (by omega)
      simp only [faLoop, hc, if_false, Bool.false_eq_true, if_neg, hmod] at h
      by_cases hgt : probe + 1 > limit
      · simp [hgt] at h
      · simp only [if_neg (by omega : ¬ probe + 1 > limit)] at h
        have := ih (probe + 1) p (by omega) h
        omega

/-- In the downward direction with `limit = probe` (how `ramp_step`
always calls it), the scan loop can only return its starting probe,
and only when the validator accepts it. -/
theorem faLoop_down_self {check : Nat → Bool} {c p fuel : Nat}
    (h : faLoop check false c c fuel = some p) : p = c ∧ check c = true := by
  cases fuel with
  | zero => simp [faLoop] at h
  | succ n =>
    by_cases hc : check c
    · simp [faLoop, hc] at h
      exact ⟨h.symm, hc⟩
    · rcases Nat.eq_zero_or_pos c with h0 | h0
      · subst h0; simp [faLoop, hc] at h
      · simp [faLoop, hc, (by omega : ¬ c = 0), Nat.sub_lt h0 one_pos] at h

/-- Upward `find_achievable_khz`: the result is an accepted probe in the
window `[candidate, candidate + 50)` or the fallback `target`. -/
theorem find_achievable_up {check : Nat → Bool} {candidate target : Nat}
    (hct : candidate ≤ target) (ht : target + 1 < U32) :
    (candidate ≤ find_achievable_khz check candidate target ∧
     find_achievable_khz check candidate target < candidate + 50) ∨
    find_achievable_khz check candidate target = target := by
  have he : find_achievable_khz check candidate target
      = (faLoop check true target candidate 50).getD target := by
    unfold find_achievable_khz
    simp [hct]
  rw [he]
  cases h : faLoop check true target candidate 50 with
  | none => right; rfl
  | some p =>
    left
    simpa using faLoop_up_some ht 50 candidate p hct h

/-- Downward `find_achievable_khz` (`candidate > target`): because the C
sets `limit = candidate` in this direction, the result is `candidate`
itself (when accepted) or the fallback `target`. -/
theorem find_achievable_down {check : Nat → Bool} {candidate target : Nat}
    (hct : target < candidate) :
    find_achievable_khz check candidate target = candidate ∨
    find_achievable_khz check candidate target = target := by
  have he : find_achievable_khz check candidate target
      = (faLoop check false candidate candidate 50).getD target := by
    unfold find_achievable_khz
    simp [show ¬ candidate ≤ target by omega]
  rw [he]
  cases h : faLoop check false candidate candidate 50 with
  | none => right; rfl
  | some p =>
    left
    simpa using (faLoop_down_self h).1

/-- When stepping up without `uint32_t` wrap, the candidate lies
strictly above the current frequency and at most at the request. -/
theorem rampCandidate_up (s : SysState) (new_khz : Nat)
    (hup : s.current_khz < new_khz) (hnew : new_khz + RAMP_STEP_KHZ < U32) :
    s.current_khz < rampCandidate s new_khz ∧
    rampCandidate s new_khz ≤ new_khz := by
  have h5 : RAMP_STEP_KHZ = 5000 := rfl
  have hU : U32 = 4294967296 := rfl
  have hmod : (s.current_khz + RAMP_STEP_KHZ) % U32
      = s.current_khz + RAMP_STEP_KHZ := Nat.mod_eq_of_lt (by omega)
  unfold rampCandidate
  rw [if_pos hup, hmod]
  constructor <;> split_ifs <;> omega

/-- When stepping up without wrap, `next_khz` is strictly above the
current frequency. -/
theorem rampNext_up_gt (check : Nat → Bool) (s : SysState) (new_khz : Nat)
    (hup : s.current_khz < new_khz) (hnew : new_khz + RAMP_STEP_KHZ < U32) :
    s.current_khz < rampNext check s new_khz := by
  have hU : U32 = 4294967296 := rfl
  have h5 : RAMP_STEP_KHZ = 5000 := rfl
  obtain ⟨hgt, hle⟩ := rampCandidate_up s new_khz hup hnew
  unfold rampNext
  rcases @find_achievable_up check _ _ hle (by omega) with h | h <;> omega

/-- The four-way branch structure of `ramp_step`, stated as equations on
the result state. -/
theorem ramp_step_state_eq (has135 : Bool) (check setOk : Nat → Bool)
    (s : SysState) (new_khz : Nat) (h0 : s.current_khz ≠ new_khz) :
    (ramp_step has135 check setOk s new_khz).1 =
      if setOk (rampNext check s new_khz) then
        { current_khz := rampNext check s new_khz, target_khz := s.target_khz,
          current_voltage_mv := vreg_for_khz has135 (rampNext check s new_khz) }
      else
        { current_khz := s.current_khz, target_khz := s.current_khz,
          current_voltage_mv :=
            if s.current_khz < new_khz then
              vreg_for_khz has135 (rampNext check s new_khz)
            else s.current_voltage_mv } := by
  unfold ramp_step
  rw [if_neg h0]
  by_cases hup : s.current_khz < new_khz <;>
    by_cases hok : setOk (rampNext check s new_khz) <;>
      simp [hup, hok]

/-- One `ramp_step` call preserves the voltage-safety invariant provided
the requested frequency does not drive the `candidate = current_khz +
RAMP_STEP_KHZ` computation past `uint32_t` wrap-around. -/
theorem ramp_step_preserves_volt (has135 : Bool) (check setOk : Nat → Bool)
    (s : SysState) (new_khz : Nat) (hnew : new_khz + RAMP_STEP_KHZ < U32)
    (hs : VoltOK has135 s) :
    VoltOK has135 (ramp_step has135 check setOk s new_khz).1 := by
  by_cases h0 : s.current_khz = new_khz
  · unfold ramp_step
    simpa [h0] using hs
  · rw [ramp_step_state_eq has135 check setOk s new_khz h0]
    by_cases hok : setOk (rampNext check s new_khz)
    · rw [if_pos hok]
      exact le_refl _
    · rw [if_neg hok]
      by_cases hup : s.current_khz < new_khz
      · rw [if_pos hup]
        exact vreg_for_khz_mono has135
          (le_of_lt (rampNext_up_gt check s new_khz hup hnew))
      · rw [if_neg hup]
        exact hs

/-- The `ramp_to` driver loop preserves the voltage invariant for
in-bounds requests. -/
theorem rampToLoop_preserves_volt (has135 : Bool) (check setOk : Nat → Bool)
    (new_khz : Nat) (hnew : new_khz + RAMP_STEP_KHZ < U32) :
    ∀ fuel s, VoltOK has135 s →
      VoltOK has135 (rampToLoop has135 check setOk new_khz fuel s) := by
  intro fuel
  induction fuel with
  | zero => intro s hs; simpa [rampToLoop] using hs
  | succ n ih =>
    intro s hs
    have hstep := ramp_step_preserves_volt has135 check setOk s new_khz hnew hs
    by_cases hr : (ramp_step has135 check setOk s new_khz).2.1
    · simpa [rampToLoop, hr] using hstep
    · simpa [rampToLoop, hr] using ih _ hstep

/-- `ramp_to` preserves the voltage invariant: its clamp keeps the
request in `[MIN_KHZ, MAX_KHZ]`. -/
theorem ramp_to_preserves_volt (has135 : Bool) (check setOk : Nat → Bool)
    (fuel : Nat) (s : SysState) (new_khz : Nat) (hs : VoltOK has135 s) :
    VoltOK has135 (ramp_to has135 check setOk fuel s new_khz) := by
  unfold ramp_to
  by_cases h0 : s.current_khz = new_khz
  · simpa [h0] using hs
  · rw [if_neg h0]
    apply rampToLoop_preserves_volt
    · have h1 : MIN_KHZ = 125000 := rfl
      have h2 : MAX_KHZ = 264000 := rfl
      have h3 : RAMP_STEP_KHZ = 5000 := rfl
      have h4 : U32 = 4294967296 := rfl
      split_ifs <;> omega
    · exact hs

/-- Any sequence of bounded ramp API calls preserves the voltage
invariant. -/
theorem runCalls_preserves_volt (has135 : Bool) :
    ∀ (calls : List RampCall) (s : SysState), (∀ c ∈ calls, ArgOK c) →
      VoltOK has135 s → VoltOK has135 (runCalls has135 s calls) := by
  intro calls
  induction calls with
  | nil => intro s _ hs; simpa [runCalls] using hs
  | cons c rest ih =>
    intro s hok hs
    have hc : ArgOK c := hok c (List.mem_cons_self c rest)
    have hrest : ∀ x ∈ rest, ArgOK x := fun x hx => hok x (List.mem_cons_of_mem c hx)
    have h1 : VoltOK has135 (runCall has135 s c) := by
      cases c with
      | step n check setOk => exact ramp_step_preserves_volt has135 check setOk s n hc hs
      | toFreq n check setOk fuel => exact ramp_to_preserves_volt has135 check setOk fuel s n hs
    simpa [runCalls, List.foldl_cons] using ih (runCall has135 s c) hrest h1

/-- C1 (amended).  Voltage safety invariant: in every state reachable
from the boot state (`current_khz = MIN_KHZ`, `current_voltage_mv =
1100`) by any sequence of `ramp_step` / `ramp_to` calls whose requested
frequencies satisfy `new_khz + RAMP_STEP_KHZ < 2^32` (every in-range
request does; `ramp_to` clamps unconditionally), `current_voltage_mv`
is at least the minimum safe voltage `vreg_for_khz` assigns to
`current_khz`, on both branches of `ramp_step` and also when the PLL
set fails mid-step, on builds with and without the 1.35 V setpoint. -/
theorem C1_voltage_safety (has135 : Bool) (calls : List RampCall)
    (hcalls : ∀ c ∈ calls, ArgOK c) :
    VoltOK has135 (runCalls has135 bootState calls) :=
  runCalls_preserves_volt has135 calls bootState hcalls
    (by cases has135 <;> decide)

/-- Witness for C1: a concrete up-then-down ramp sequence from boot. -/
theorem C1_voltage_safety_witness :
    VoltOK true (runCalls true bootState
      [RampCall.step 264000 (fun _ => true) (fun _ => true),
       RampCall.step 125000 (fun _ => true) (fun _ => true)]) :=
  C1_voltage_safety true
    [RampCall.step 264000 (fun _ => true) (fun _ => true),
     RampCall.step 125000 (fun _ => true) (fun _ => true)]
    (by
      intro c hc
      simp only [List.mem_cons, List.not_mem_nil, or_false] at hc
      rcases hc with rfl | rfl
      · show (264000 : Nat) + RAMP_STEP_KHZ < U32
        decide
      · show (125000 : Nat) + RAMP_STEP_KHZ < U32
        decide)

/-- Counterexample to C1 as frozen (any sequence of calls, no bound on
the requested frequency): a first `ramp_step` whose 50 probes all fail
falls back to the request `4294967294` itself and the PLL set accepts
it; a second `ramp_step` toward `4294967295` wraps `current_khz +
RAMP_STEP_KHZ` around `2^32` to `4998`, the validator accepts `4998`,
the pre-step voltage write lowers `current_voltage_mv` to 1100 mV, and
then the PLL set fails, leaving `current_khz = 4294967294` (needing
1350 mV) at 1100 mV. -/
theorem C1_voltage_safety_counterexample :
    ¬ VoltOK true (runCalls true bootState
      [RampCall.step 4294967294 (fun _ => false) (fun _ => true),
       RampCall.step 4294967295 (fun k => k == 4998) (fun _ => false)]) ∧
    (runCalls true bootState
      [RampCall.step 4294967294 (fun _ => false) (fun _ => true),
       RampCall.step 4294967295 (fun k => k == 4998) (fun _ => false)]).current_khz
      = 4294967294 ∧
    (runCalls true bootState
      [RampCall.step 4294967294 (fun _ => false) (fun _ => true),
       RampCall.step 4294967295 (fun k => k == 4998) (fun _ => false)]).current_voltage_mv
      = 1100 := by
  refine ⟨by decide, by decide, by decide⟩

/-- C3.  `find_achievable_khz` called downward (`candidate = 130000 >
target = 125000`) with a validator that accepts exactly `129999`:
the claim says the scan probes `130000, 129999, ...` (up to 50 values)
and returns the first accepted one, `129999`; because the source sets
`limit = candidate` in the down direction the loop aborts after its
first decrement and returns the fallback `target = 125000`, a value the
validator rejects. -/
theorem C3_find_achievable_down_aborts :
    find_achievable_khz (fun k => k == 129999) 130000 125000 = 125000 ∧
    (fun k => k == 129999) 129999 = true ∧
    (fun k => k == 129999) 125000 = false ∧
    130000 - 129999 ≤ 50 := by
  refine ⟨by decide, by decide, by decide, by decide⟩

/-- C4 (amended).  Ramp step-size bound: whenever a `ramp_step` call
from an in-range state updates `current_khz`, either the new frequency
is within `1.2 × RAMP_STEP_KHZ = 6000` kHz of the old one, or
`find_achievable_khz` fell back to the requested target itself (no
probed value accepted) and `current_khz` jumps directly to `new_khz`,
however far away. -/
theorem C4_ramp_step_bound (has135 : Bool) (check setOk : Nat → Bool)
    (s : SysState) (new_khz : Nat)
    (hlo : RAMP_STEP_KHZ ≤ s.current_khz)
    (hhi : s.current_khz + RAMP_STEP_KHZ < U32)
    (hnew : new_khz + RAMP_STEP_KHZ < U32)
    (hchanged : (ramp_step has135 check setOk s new_khz).1.current_khz
      ≠ s.current_khz) :
    ((ramp_step has135 check setOk s new_khz).1.current_khz
        ≤ s.current_khz + 6000 ∧
     s.current_khz
        ≤ (ramp_step has135 check setOk s new_khz).1.current_khz + 6000) ∨
    (ramp_step has135 check setOk s new_khz).1.current_khz = new_khz := by
  have h5 : RAMP_STEP_KHZ = 5000 := rfl
  have hU : U32 = 4294967296 := rfl
  by_cases h0 : s.current_khz = new_khz
  · exfalso
    apply hchanged
    unfold ramp_step
    rw [if_pos h0]
  · rw [ramp_step_state_eq has135 check setOk s new_khz h0] at hchanged ⊢
    by_cases hok : setOk (rampNext check s new_khz)
    · rw [if_pos hok] at hchanged ⊢
      dsimp only at hchanged ⊢
      by_cases hup : s.current_khz < new_khz
      · -- stepping up
        obtain ⟨hc1, hc2⟩ := rampCandidate_up s new_khz hup hnew
        have hc3 : rampCandidate s new_khz ≤ s.current_khz + RAMP_STEP_KHZ := by
          unfold rampCandidate
          rw [if_pos hup,
            Nat.mod_eq_of_lt (by omega : s.current_khz + RAMP_STEP_KHZ < U32)]
          split_ifs <;> omega
        have hfa : (rampCandidate s new_khz ≤ rampNext check s new_khz ∧
            rampNext check s new_khz < rampCandidate s new_khz + 50) ∨
            rampNext check s new_khz = new_khz := by
          unfold rampNext
          exact find_achievable_up hc2 (by omega)
        rcases hfa with h | h
        · left; omega
        · right; exact h
      · -- stepping down
        have hdown : new_khz < s.current_khz := by omega
        have hmod : (s.current_khz + (U32 - RAMP_STEP_KHZ)) % U32
            = s.current_khz - RAMP_STEP_KHZ := by
          have : s.current_khz + (U32 - RAMP_STEP_KHZ)
              = U32 + (s.current_khz - RAMP_STEP_KHZ) := by omega
          rw [this, Nat.add_mod_left]
          exact Nat.mod_eq_of_lt (by omega)
        have hcand : rampCandidate s new_khz =
            if s.current_khz - RAMP_STEP_KHZ < new_khz then new_khz
            else s.current_khz - RAMP_STEP_KHZ := by
          unfold rampCandidate
          rw [if_neg hup, hmod]
        by_cases hlt : s.current_khz - RAMP_STEP_KHZ ≤ new_khz
        · -- candidate lands on the target: upward-mode scan from target
          have hcand2 : rampCandidate s new_khz = new_khz := by
            rw [hcand]; split_ifs <;> omega
          have hfa : (new_khz ≤ rampNext check s new_khz ∧
              rampNext check s new_khz < new_khz + 50) ∨
              rampNext check s new_khz = new_khz := by
            unfold rampNext
            rw [hcand2]
            exact find_achievable_up (le_refl new_khz) (by omega)
          rcases hfa with h | h
          · left; omega
          · right; exact h
        · -- candidate strictly above target: down-mode scan
          rw [if_neg (by omega : ¬ s.current_khz - RAMP_STEP_KHZ < new_khz)]
            at hcand
          have hfa : rampNext check s new_khz = s.current_khz - RAMP_STEP_KHZ ∨
              rampNext check s new_khz = new_khz := by
            unfold rampNext
            rw [hcand]
            exact find_achievable_down (by omega)
          rcases hfa with h | h
          · left
            rw [h]
            omega
          · right; exact h
    · rw [if_neg hok] at hchanged
      exact absurd rfl hchanged

/-- Witness for C4: an accepted single up-step from boot lands 5000 kHz
higher. -/
theorem C4_ramp_step_bound_witness :
    ((ramp_step true (fun _ => true) (fun _ => true) bootState 264000).1.current_khz
        ≤ bootState.current_khz + 6000 ∧
     bootState.current_khz
        ≤ (ramp_step true (fun _ => true) (fun _ => true) bootState 264000).1.current_khz
          + 6000) ∨
    (ramp_step true (fun _ => true) (fun _ => true) bootState 264000).1.current_khz
      = 264000 :=
  C4_ramp_step_bound true (fun _ => true) (fun _ => true) bootState 264000
    (by decide) (by decide) (by decide) (by decide)

/-- Counterexample to C4 as frozen: with a validator that rejects all
50 probes and a PLL set that succeeds, one successful `ramp_step` from
boot (125000 kHz) toward 264000 kHz moves `current_khz` by 139000 kHz,
far beyond `1.2 × RAMP_STEP_KHZ = 6000`. -/
theorem C4_ramp_step_bound_counterexample :
    (ramp_step true (fun _ => false) (fun _ => true) bootState 264000).1.current_khz
      = 264000 ∧
    bootState.current_khz = 125000 ∧
    ¬ (264000 - 125000 ≤ 6000) := by
  refine ⟨by decide, by decide, by decide⟩

/-- C5.  Stability-arbiter notification: a successful clock change
performed by `ramp_step` (boot state, request 130000 kHz, validator and
PLL set both succeed) updates `current_khz`, yet the trace of external
calls `ramp_step` makes contains no `pio_idle_notify_freq_change` —
the source never calls it, contradicting the spec and the
`pio_idle.h` contract that it MUST follow every successful change. -/
theorem C5_no_notify_after_change :
    (ramp_step true (fun _ => true) (fun _ => true) bootState 130000).1.current_khz
      = 130000 ∧
    bootState.current_khz ≠ 130000 ∧
    (ramp_step true (fun _ => true) (fun _ => true) bootState 130000).2.2.all
      (fun e => ! e.isNotify) = true := by
  refine ⟨by decide, by decide, by decide⟩

/-- C6.  PLL set failure atomicity and clamping: whenever the PLL set
operation fails inside `ramp_step`, the call leaves `current_khz`
unchanged, assigns `target_khz := current_khz`, and returns `true`. -/
theorem C6_pll_fail_clamp (has135 : Bool) (check setOk : Nat → Bool)
    (s : SysState) (new_khz : Nat) (h0 : s.current_khz ≠ new_khz)
    (hfail : setOk (rampNext check s new_khz) = false) :
    (ramp_step has135 check setOk s new_khz).1.current_khz = s.current_khz ∧
    (ramp_step has135 check setOk s new_khz).1.target_khz = s.current_khz ∧
    (ramp_step has135 check setOk s new_khz).2.1 = true := by
  unfold ramp_step
  rw [if_neg h0]
  by_cases hup : s.current_khz < new_khz <;> simp [hup, hfail]

/-- Left shift distributes over XOR. -/
theorem xor_mul_two_pow (x y k : Nat) :
    (x ^^^ y) * 2 ^ k = x * 2 ^ k ^^^ y * 2 ^ k := by
  apply Nat.eq_of_testBit_eq
  intro i
  rw [← Nat.shiftLeft_eq, ← Nat.shiftLeft_eq, ← Nat.shiftLeft_eq]
  simp only [Nat.testBit_shiftLeft, Nat.testBit_xor]
  cases hk : decide (k ≤ i) <;> simp

/-- Truncation to `n` bits distributes over XOR. -/
theorem xor_mod_two_pow (x y n : Nat) :
    (x ^^^ y) % 2 ^ n = x % 2 ^ n ^^^ y % 2 ^ n := by
  apply Nat.eq_of_testBit_eq
  intro i
  simp only [Nat.testBit_mod_two_pow, Nat.testBit_xor]
  cases hk : decide (i < n) <;> simp

/-- A CRC step on an accumulator XOR-perturbed by `d` shifts the
perturbation left by 7 bits (mod `2^32`). -/
theorem crcStep_xor (c d b : Nat) :
    crcStep (c ^^^ d) b = crcStep c b ^^^ d * 128 % U32 := by
  unfold crcStep
  have h128 : (128 : Nat) = 2 ^ 7 := by norm_num
  have hU : U32 = 2 ^ 32 := by norm_num [U32]
  rw [h128, hU, xor_mul_two_pow, xor_mod_two_pow]
  rw [Nat.xor_assoc, Nat.xor_assoc, Nat.xor_comm b]

/-- The CRC accumulator stays below `2^32`. -/
theorem crcFold_lt (l : List Nat) (hl : ∀ b ∈ l, b < U32) :
    ∀ c, c < U32 → l.foldl crcStep c < U32 := by
  induction l with
  | nil => intro c hc; simpa using hc
  | cons b t ih =>
    intro c hc
    simp only [List.foldl_cons]
    apply ih (fun x hx => hl x (List.mem_cons_of_mem b hx))
    have hb : b < U32 := hl b (List.mem_cons_self b t)
    have h1 : c * 128 % U32 < U32 := Nat.mod_lt _ (by norm_num [U32])
    have hU : U32 = 2 ^ 32 := by norm_num [U32]
    rw [hU] at h1 hb ⊢
    exact Nat.xor_lt_two_pow h1 hb

/-- Folding the CRC over a list from an accumulator perturbed by `d`
yields the unperturbed result XOR `d` shifted left 7 bits per folded
byte, truncated to 32 bits. -/
theorem crcFold_xor :
    ∀ (l : List Nat) (c d : Nat), d < U32 →
      l.foldl crcStep (c ^^^ d)
        = l.foldl crcStep c ^^^ d * 2 ^ (7 * l.length) % U32 := by
  intro l
  induction l with
  | nil =>
    intro c d hd
    simp [Nat.mod_eq_of_lt hd]
  | cons b t ih =>
    intro c d hd
    simp only [List.foldl_cons, List.length_cons]
    rw [crcStep_xor,
      ih (crcStep c b) (d * 128 % U32) (Nat.mod_lt _ (by norm_num [U32]))]
    congr 1
    rw [Nat.mod_mul_mod]
    congr 1
    have h7 : 7 * (t.length + 1) = 7 * t.length + 7 := by ring
    rw [h7, pow_add]
    ring

/-- `getD` on an appended list, offset past the left part. -/
theorem getD_append_off (l m : List Nat) (j : Nat) :
    (l ++ m).getD (l.length + j) 0 = m.getD j 0 := by
  simp [List.getD, List.getElem?_append_right (Nat.le_add_right l.length j),
    Nat.add_sub_cancel_left]

/-- `getD` after `set` at a different index. -/
theorem getD_set_ne (l : List Nat) (i j a : Nat) (h : i ≠ j) :
    (l.set i a).getD j 0 = l.getD j 0 := by
  simp [List.getD, List.getElem?_set_ne h]

/-- `getD` after `set` at the written index. -/
theorem getD_set_self (l : List Nat) (i a : Nat) (h : i < l.length) :
    (l.set i a).getD i 0 = a := by
  simp [List.getD, List.getElem?_set_self, h]

/-- Decoding the four little-endian bytes of `c < 2^32` appended after
`l`, at offset `l.length`, recovers `c`. -/
theorem dec32_append_le32 (l : List Nat) (c : Nat) (hc : c < U32) :
    dec32 (l ++ le32 c) l.length = c := by
  have hU : U32 = 4294967296 := rfl
  have g0 := getD_append_off l (le32 c) 0
  have g1 := getD_append_off l (le32 c) 1
  have g2 := getD_append_off l (le32 c) 2
  have g3 := getD_append_off l (le32 c) 3
  rw [Nat.add_zero] at g0
  unfold dec32
  rw [g0, g1, g2, g3]
  unfold le32
  simp only [List.getD_cons_zero, List.getD_cons_succ]
  omega

/-- Replacing the byte at `i` perturbs `simple_crc` by the byte
difference shifted 7 bits per later byte. -/
theorem simple_crc_set_eq (l : List Nat) (i : Nat) (hi : i < l.length)
    (b' : Nat) (hlt : l.getD i 0 ^^^ b' < U32) :
    simple_crc (l.set i b')
      = simple_crc l
        ^^^ (l.getD i 0 ^^^ b') * 2 ^ (7 * (l.length - (i + 1))) % U32 := by
  have hset : l.set i b' = l.take i ++ b' :: l.drop (i + 1) := by
    rw [List.set_eq_take_append_cons_drop, if_pos hi]
  have hsplit : l = l.take i ++ l.getD i 0 :: l.drop (i + 1) := by
    conv_lhs => rw [← List.take_append_drop i l]
    rw [List.drop_eq_getElem_cons hi]
    congr 2
    simp [List.getD, List.getElem?_eq_getElem hi]
  have hlen : (l.drop (i + 1)).length = l.length - (i + 1) := by simp
  have hL : simple_crc (l.set i b')
      = (l.drop (i + 1)).foldl crcStep
          (crcStep ((l.take i).foldl crcStep 0xA5A5A5A5) b') := by
    unfold simple_crc
    rw [hset, List.foldl_append]
    simp only [List.foldl_cons]
  have hR : simple_crc l
      = (l.drop (i + 1)).foldl crcStep
          (crcStep ((l.take i).foldl crcStep 0xA5A5A5A5) (l.getD i 0)) := by
    unfold simple_crc
    conv_lhs => rw [hsplit]
    rw [List.foldl_append]
    simp only [List.foldl_cons]
  have hstep : crcStep ((l.take i).foldl crcStep 0xA5A5A5A5) b'
      = crcStep ((l.take i).foldl crcStep 0xA5A5A5A5) (l.getD i 0)
        ^^^ (l.getD i 0 ^^^ b') := by
    unfold crcStep
    rw [Nat.xor_assoc, ← Nat.xor_assoc (l.getD i 0), Nat.xor_self,
      Nat.zero_xor]
  rw [hL, hR, hstep, crcFold_xor _ _ _ hlt, hlen]

/-- A byte change five or more positions before the end does not change
`simple_crc`: its contribution is shifted entirely out of the 32-bit
accumulator. -/
theorem simple_crc_set_far (l : List Nat) (i : Nat) (hi : i + 6 ≤ l.length)
    (b' : Nat) (hb' : b' < 256) (hbi : l.getD i 0 < 256) :
    simple_crc (l.set i b') = simple_crc l := by
  have hU : U32 = 2 ^ 32 := by norm_num [U32]
  have hlt : l.getD i 0 ^^^ b' < U32 := by
    rw [hU]
    exact Nat.xor_lt_two_pow (by omega) (by omega)
  rw [simple_crc_set_eq l i (by omega) b' hlt]
  have hz : (l.getD i 0 ^^^ b') * 2 ^ (7 * (l.length - (i + 1))) % U32 = 0 := by
    have h35 : 7 * (l.length - (i + 1)) = (7 * (l.length - (i + 1)) - 32) + 32 := by
      omega
    rw [h35, pow_add, show (2 : Nat) ^ 32 = U32 by norm_num [U32], ← Nat.mul_assoc]
    exact Nat.mul_mod_left _ _
  rw [hz, Nat.xor_zero]

/-- A genuine byte change within the last four positions does change
`simple_crc`: its full 8-bit contribution survives in the accumulator. -/
theorem simple_crc_set_near (l : List Nat) (i : Nat) (hi : i < l.length)
    (hnear : l.length ≤ i + 4) (b' : Nat) (hb' : b' < 256)
    (hbi : l.getD i 0 < 256) (hne : b' ≠ l.getD i 0) :
    simple_crc (l.set i b') ≠ simple_crc l := by
  have hU : U32 = 2 ^ 32 := by norm_num [U32]
  have hlt : l.getD i 0 ^^^ b' < U32 := by
    rw [hU]
    exact Nat.xor_lt_two_pow (by omega) (by omega)
  rw [simple_crc_set_eq l i hi b' hlt]
  intro hEq
  have hd256 : l.getD i 0 ^^^ b' < 256 := by
    have : (256 : Nat) = 2 ^ 8 := by norm_num
    rw [this]
    exact Nat.xor_lt_two_pow (by omega) (by omega)
  have hdne : l.getD i 0 ^^^ b' ≠ 0 := fun h =>
    hne (Nat.xor_eq_zero.mp h).symm
  have hk : 7 * (l.length - (i + 1)) ≤ 21 := by omega
  have hprod : (l.getD i 0 ^^^ b') * 2 ^ (7 * (l.length - (i + 1))) < U32 := by
    calc (l.getD i 0 ^^^ b') * 2 ^ (7 * (l.length - (i + 1)))
        ≤ 255 * 2 ^ 21 :=
          Nat.mul_le_mul (by omega) (Nat.pow_le_pow_right (by norm_num) hk)
      _ < U32 := by norm_num [U32]
  rw [Nat.mod_eq_of_lt hprod] at hEq
  have h0 : (l.getD i 0 ^^^ b') * 2 ^ (7 * (l.length - (i + 1))) = 0 := by
    have := congrArg (fun z => simple_crc l ^^^ z) hEq
    simpa [← Nat.xor_assoc, Nat.xor_self, Nat.zero_xor] using this.symm
  rcases Nat.mul_eq_zero.mp h0 with h | h
  · exact hdne h
  · exact absurd h (Nat.pos_iff_ne_zero.mp (Nat.pos_pow_of_pos _ (by norm_num)))

/-- `getD` on an appended list, inside the left part. -/
theorem getD_append_left (l m : List Nat) (i : Nat) (h : i < l.length) :
    (l ++ m).getD i 0 = l.getD i 0 := by
  simp [List.getD, List.getElem?_append_left h]

/-- `getD` of a byte list is a byte. -/
theorem getD_lt_of_bytes (l : List Nat) (hb : ∀ b ∈ l, b < 256) (i : Nat)
    (hi : i < l.length) : l.getD i 0 < 256 := by
  have he : l.getD i 0 = l[i] := by
    simp [List.getD, List.getElem?_eq_getElem hi]
  rw [he]
  exact hb _ (List.getElem_mem hi)

/-- `dec32` ignores a `set` outside its four-byte window. -/
theorem dec32_set_ne (l : List Nat) (j off a : Nat)
    (h : j < off ∨ off + 3 < j) : dec32 (l.set j a) off = dec32 l off := by
  unfold dec32
  rw [getD_set_ne l j off a (by omega), getD_set_ne l j (off + 1) a (by omega),
    getD_set_ne l j (off + 2) a (by omega),
    getD_set_ne l j (off + 3) a (by omega)]

/-- `le32` produces bytes. -/
theorem le32_bytes (x : Nat) : ∀ b ∈ le32 x, b < 256 := by
  intro b hb
  simp [le32] at hb
  rcases hb with h | h | h | h <;> subst h <;> omega

/-- Length of the `name[56]` field. -/
theorem persistNameField_length (name : List Nat) (h : name.length ≤ 55) :
    (persistNameField name).length = 56 := by
  simp [persistNameField]
  omega

/-- Length of the CRC-covered record body. -/
theorem persistBody_length (name : List Nat) (h : name.length ≤ 55) :
    (persistBody name).length = 64 := by
  simp [persistBody, le32, persistNameField_length name h]

/-- All body bytes are bytes when the name's are. -/
theorem persistBody_bytes (name : List Nat) (hb : ∀ b ∈ name, b < 256) :
    ∀ b ∈ persistBody name, b < 256 := by
  intro b hmem
  unfold persistBody at hmem
  rcases List.mem_append.mp hmem with h | h
  · rcases List.mem_append.mp h with h' | h'
    · exact le32_bytes _ b h'
    · exact le32_bytes _ b h'
  · unfold persistNameField at h
    rcases List.mem_append.mp h with h2 | h2
    · rcases List.mem_append.mp h2 with h3 | h3
      · exact hb b (List.take_subset _ _ h3)
      · rw [List.eq_of_mem_replicate h3]
        omega
    · simp only [List.mem_singleton] at h2
      omega

/-- C2 (amended).  Persistence corruption detection: for every governor
name of length ≤ 55 (byte values < 256) saved by `persist_save`,
flipping a single stored byte is detected by `persist_load` exactly
where the magic or the surviving CRC contribution covers it: a flip at
offsets 0–3 (the magic) or 60–63 (the last four CRC-covered bytes)
makes `persist_load` return `none`, while a flip anywhere in offsets
4–58 (version field and `name[0..50]`) goes undetected and
`persist_load` still returns a name, because `simple_crc` shifts those
bytes' contributions entirely out of its 32-bit accumulator.  (Byte 59
is caught exactly when its low four bits change; bytes 64–67 are the
stored CRC itself.) -/
theorem C2_corruption_detection (name : List Nat) (hlen : name.length ≤ 55)
    (hbytes : ∀ b ∈ name, b < 256) (i b' : Nat) (hb' : b' < 256)
    (hdiff : b' ≠ (persist_save_record name).getD i 0) :
    ((i < 4 ∨ (60 ≤ i ∧ i ≤ 63)) →
      persist_load_rec ((persist_save_record name).set i b') = none) ∧
    (4 ≤ i → i ≤ 58 →
      (persist_load_rec ((persist_save_record name).set i b')).isSome
        = true) := by
  have hbodylen := persistBody_length name hlen
  have hbodybytes := persistBody_bytes name hbytes
  have hreclen : (persist_save_record name).length = 68 := by
    simp [persist_save_record, hbodylen, le32]
  have hcrclt : simple_crc (persistBody name) < U32 :=
    crcFold_lt _ (fun b hb => lt_trans (hbodybytes b hb) (by norm_num [U32]))
      _ (by norm_num [U32])
  have hset_body : ∀ j, j < 64 →
      (persist_save_record name).set j b'
        = (persistBody name).set j b'
          ++ le32 (simple_crc (persistBody name)) := by
    intro j hj
    unfold persist_save_record
    exact List.set_append_left _ _ (by omega)
  have htake64 : ∀ j, j < 64 →
      ((persist_save_record name).set j b').take 64
        = (persistBody name).set j b' := by
    intro j hj
    rw [hset_body j hj]
    have hl : ((persistBody name).set j b').length = 64 := by
      simp [hbodylen]
    rw [← hl]
    exact List.take_left _ _
  have hdec_high : ∀ j, j < 64 →
      dec32 ((persist_save_record name).set j b') 64
        = simple_crc (persistBody name) := by
    intro j hj
    rw [dec32_set_ne _ _ _ _ (Or.inl hj)]
    have h2 := dec32_append_le32 (persistBody name)
      (simple_crc (persistBody name)) hcrclt
    rw [hbodylen] at h2
    exact h2
  have f0 : (persist_save_record name).getD 0 0 = 71 := rfl
  have f1 : (persist_save_record name).getD (0 + 1) 0 = 79 := rfl
  have f2 : (persist_save_record name).getD (0 + 2) 0 = 86 := rfl
  have f3 : (persist_save_record name).getD (0 + 3) 0 = 71 := rfl
  have hmagic_same : ∀ j, 4 ≤ j →
      dec32 ((persist_save_record name).set j b') 0 = 0x47564F47 := by
    intro j hj
    rw [dec32_set_ne _ _ _ _ (Or.inr (by omega))]
    unfold dec32
    rw [f0, f1, f2, f3]
  have hgetD_low : ∀ j, j < 64 →
      (persist_save_record name).getD j 0 = (persistBody name).getD j 0 := by
    intro j hj
    unfold persist_save_record
    exact getD_append_left _ _ j (by omega)
  constructor
  · intro hA
    rcases hA with hlt4 | ⟨h60, h63⟩
    · -- the flipped byte breaks the magic
      have hcond : dec32 ((persist_save_record name).set i b') 0
          ≠ 0x47564F47 := by
        interval_cases i
        · have hd : b' ≠ 71 := hdiff
          have g0 : ((persist_save_record name).set 0 b').getD 0 0 = b' := rfl
          have g1 : ((persist_save_record name).set 0 b').getD (0 + 1) 0 = 79 := rfl
          have g2 : ((persist_save_record name).set 0 b').getD (0 + 2) 0 = 86 := rfl
          have g3 : ((persist_save_record name).set 0 b').getD (0 + 3) 0 = 71 := rfl
          unfold dec32
          rw [g0, g1, g2, g3]
          omega
        · have hd : b' ≠ 79 := hdiff
          have g0 : ((persist_save_record name).set 1 b').getD 0 0 = 71 := rfl
          have g1 : ((persist_save_record name).set 1 b').getD (0 + 1) 0 = b' := rfl
          have g2 : ((persist_save_record name).set 1 b').getD (0 + 2) 0 = 86 := rfl
          have g3 : ((persist_save_record name).set 1 b').getD (0 + 3) 0 = 71 := rfl
          unfold dec32
          rw [g0, g1, g2, g3]
          omega
        · have hd : b' ≠ 86 := hdiff
          have g0 : ((persist_save_record name).set 2 b').getD 0 0 = 71 := rfl
          have g1 : ((persist_save_record name).set 2 b').getD (0 + 1) 0 = 79 := rfl
          have g2 : ((persist_save_record name).set 2 b').getD (0 + 2) 0 = b' := rfl
          have g3 : ((persist_save_record name).set 2 b').getD (0 + 3) 0 = 71 := rfl
          unfold dec32
          rw [g0, g1, g2, g3]
          omega
        · have hd : b' ≠ 71 := hdiff
          have g0 : ((persist_save_record name).set 3 b').getD 0 0 = 71 := rfl
          have g1 : ((persist_save_record name).set 3 b').getD (0 + 1) 0 = 79 := rfl
          have g2 : ((persist_save_record name).set 3 b').getD (0 + 2) 0 = 86 := rfl
          have g3 : ((persist_save_record name).set 3 b').getD (0 + 3) 0 = b' := rfl
          unfold dec32
          rw [g0, g1, g2, g3]
          omega
      unfold persist_load_rec
      rw [if_pos hcond]
    · -- the flipped byte is fully covered by the surviving CRC window
      have hcond2 : simple_crc (((persist_save_record name).set i b').take 64)
          ≠ dec32 ((persist_save_record name).set i b') 64 := by
        rw [htake64 i (by omega), hdec_high i (by omega)]
        apply simple_crc_set_near (persistBody name) i (by omega) (by omega)
          b' hb'
        · exact getD_lt_of_bytes _ hbodybytes i (by omega)
        · rw [← hgetD_low i (by omega)]
          exact hdiff
      unfold persist_load_rec
      rw [if_neg (not_not_intro (hmagic_same i (by omega))), if_pos hcond2]
  · intro h4 h58
    have hEqcrc : simple_crc (((persist_save_record name).set i b').take 64)
        = dec32 ((persist_save_record name).set i b') 64 := by
      rw [htake64 i (by omega), hdec_high i (by omega)]
      exact simple_crc_set_far (persistBody name) i (by omega) b' hb'
        (getD_lt_of_bytes _ hbodybytes i (by omega))
    unfold persist_load_rec
    rw [if_neg (not_not_intro (hmagic_same i h4)),
      if_neg (not_not_intro hEqcrc)]
    rfl

/-- Witness for C2: flipping the first magic byte of the saved record
for "perf" makes the load fail. -/
theorem C2_corruption_detection_witness :
    persist_load_rec ((persist_save_record [112, 101, 114, 102]).set 0 0)
      = none :=
  (C2_corruption_detection [112, 101, 114, 102] (by decide) (by decide) 0 0
    (by decide) (by decide)).1 (Or.inl (by decide))

/-- Counterexample to C2 as frozen: byte 4 (the version field's low
byte, strictly before the CRC field at offset 64) of the record saved
for the name "perf" is 1; flipping it to 0 leaves `persist_load`
succeeding — it returns the name "perf" instead of failing — because
`simple_crc` has already shifted that byte's contribution out of its
accumulator. -/
theorem C2_corruption_detection_counterexample :
    persist_load_rec ((persist_save_record [112, 101, 114, 102]).set 4 0)
      = some [112, 101, 114, 102] ∧
    (persist_save_record [112, 101, 114, 102]).getD 4 0 = 1 ∧
    (0 : Nat) ≠ 1 := by
  refine ⟨by decide, by decide, by decide⟩

/-- C9.  `simple_crc` depends only on the last five bytes of its input:
two byte buffers of equal length that agree on their final five bytes
(hence on all bytes when shorter than five) produce the same CRC,
because each byte's contribution is shifted left 7 bits per subsequent
byte and leaves the 32-bit accumulator after five more bytes. -/
theorem C9_simple_crc_last_five (l1 l2 : List Nat)
    (h1 : ∀ b ∈ l1, b < 256) (h2 : ∀ b ∈ l2, b < 256)
    (hlen : l1.length = l2.length)
    (hsuf : l1.drop (l1.length - 5) = l2.drop (l2.length - 5)) :
    simple_crc l1 = simple_crc l2 := by
  have hU : U32 = 2 ^ 32 := by norm_num [U32]
  by_cases hsmall : l1.length < 5
  · have e1 : l1.length - 5 = 0 := by omega
    have e2 : l2.length - 5 = 0 := by omega
    rw [e1, e2, List.drop_zero, List.drop_zero] at hsuf
    rw [hsuf]
  · have key : ∀ l : List Nat, simple_crc l
        = (l.drop (l.length - 5)).foldl crcStep
            ((l.take (l.length - 5)).foldl crcStep 0xA5A5A5A5) := by
      intro l
      unfold simple_crc
      conv_lhs => rw [← List.take_append_drop (l.length - 5) l]
      rw [List.foldl_append]
    have hc1 : (l1.take (l1.length - 5)).foldl crcStep 0xA5A5A5A5 < U32 :=
      crcFold_lt _ (fun b hb => lt_trans (h1 b (List.take_subset _ _ hb))
        (by norm_num [U32])) _ (by norm_num [U32])
    have hc2 : (l2.take (l2.length - 5)).foldl crcStep 0xA5A5A5A5 < U32 :=
      crcFold_lt _ (fun b hb => lt_trans (h2 b (List.take_subset _ _ hb))
        (by norm_num [U32])) _ (by norm_num [U32])
    have hd : (l2.take (l2.length - 5)).foldl crcStep 0xA5A5A5A5
        ^^^ (l1.take (l1.length - 5)).foldl crcStep 0xA5A5A5A5 < U32 := by
      rw [hU] at hc1 hc2 ⊢
      exact Nat.xor_lt_two_pow hc2 hc1
    have hswap : (l1.take (l1.length - 5)).foldl crcStep 0xA5A5A5A5
        = (l2.take (l2.length - 5)).foldl crcStep 0xA5A5A5A5
          ^^^ ((l2.take (l2.length - 5)).foldl crcStep 0xA5A5A5A5
               ^^^ (l1.take (l1.length - 5)).foldl crcStep 0xA5A5A5A5) := by
      rw [← Nat.xor_assoc, Nat.xor_self, Nat.zero_xor]
    have hslen : (l2.drop (l2.length - 5)).length = 5 := by
      simp only [List.length_drop]
      omega
    rw [key l1, key l2, hsuf, hswap, crcFold_xor _ _ _ hd, hslen]
    have hz : ((l2.take (l2.length - 5)).foldl crcStep 0xA5A5A5A5
        ^^^ (l1.take (l1.length - 5)).foldl crcStep 0xA5A5A5A5)
          * 2 ^ (7 * 5) % U32 = 0 := by
      rw [show (2 : Nat) ^ (7 * 5) = 8 * U32 by norm_num [U32], ← Nat.mul_assoc]
      exact Nat.mul_mod_left _ _
    rw [hz, Nat.xor_zero]

/-- Witness for C9: two six-byte buffers differing only in their first
byte hash to the same CRC. -/
theorem C9_simple_crc_last_five_witness :
    simple_crc [1, 2, 3, 4, 5, 6] = simple_crc [9, 2, 3, 4, 5, 6] :=
  C9_simple_crc_last_five [1, 2, 3, 4, 5, 6] [9, 2, 3, 4, 5, 6]
    (by decide) (by decide) (by decide) (by decide)

/-- Projections of `metrics_submit` while the buffer still grows. -/
theorem metrics_submit_grow (st : MetricsState) (x : MetricSample)
    (h : st.cnt < 128) :
    (metrics_submit st x).cnt = st.cnt + 1 ∧
    (metrics_submit st x).tail = st.tail ∧
    (metrics_submit st x).head = (st.head + 1) % 128 ∧
    (metrics_submit st x).buf = Function.update st.buf st.head x := by
  refine ⟨?_, ?_, ?_, ?_⟩ <;> simp [metrics_submit, h]

/-- Projections of `metrics_submit` once the buffer is full: the oldest
record is overwritten and `tail` follows `head`. -/
theorem metrics_submit_full (st : MetricsState) (x : MetricSample)
    (h : ¬ st.cnt < 128) :
    (metrics_submit st x).cnt = st.cnt ∧
    (metrics_submit st x).tail = (st.head + 1) % 128 ∧
    (metrics_submit st x).head = (st.head + 1) % 128 ∧
    (metrics_submit st x).buf = Function.update st.buf st.head x := by
  refine ⟨?_, ?_, ?_, ?_⟩ <;> simp [metrics_submit, h]

/-- `metrics_submit` maintains the ring-buffer representation
invariant. -/
theorem metrics_submit_inv (l : List MetricSample) (x : MetricSample)
    (st : MetricsState) (h : MInv l st) : MInv (l ++ [x]) (metrics_submit st x) := by
  obtain ⟨htail, hcnt, hhead, hcol⟩ := h
  have hlencol : (collectList st).length = st.cnt := by
    simp [collectList]
  by_cases hlt : st.cnt < 128
  · -- buffer still growing: the new sample is appended
    obtain ⟨e1, e2, e3, e4⟩ := metrics_submit_grow st x hlt
    have hlen : l.length < 128 := by omega
    have hkey : collectList (metrics_submit st x) = collectList st ++ [x] := by
      unfold collectList
      rw [e1, e2, e4, List.range_succ, List.map_append]
      congr 1
      · apply List.map_congr_left
        intro n hn
        have hn' : n < st.cnt := List.mem_range.mp hn
        apply Function.update_noteq
        rw [hhead]
        omega
      · simp only [List.map_cons, List.map_nil]
        rw [← hhead]
        rw [Function.update_same]
    refine ⟨by rw [e2]; exact htail, by rw [e1]; simp; omega, ?_, ?_⟩
    · rw [e3, e1, e2, hhead, Nat.mod_add_mod]
      omega
    · rw [hkey, hcol]
      have d1 : l.length - 128 = 0 := by omega
      have d2 : (l ++ [x]).length - 128 = 0 := by simp; omega
      rw [d1, d2, List.drop_zero, List.drop_zero]
  · -- buffer full: the oldest record is dropped, the new one appended
    obtain ⟨e1, e2, e3, e4⟩ := metrics_submit_full st x hlt
    have hcnt128 : st.cnt = 128 := by omega
    have hlen : 128 ≤ l.length := by omega
    have hheadlt : st.head < 128 := by rw [hhead]; exact Nat.mod_lt _ (by norm_num)
    have hht : st.head = st.tail := by rw [hhead]; omega
    have hkey : collectList (metrics_submit st x)
        = (collectList st).drop 1 ++ [x] := by
      unfold collectList
      rw [e1, e2, e4]
      apply List.ext_getElem
      · simp
        omega
      · intro i h1 h2
        simp only [List.getElem_map]
        rw [List.getElem_range, Nat.mod_add_mod]
        have hilt : i < st.cnt := by simpa using h1
        by_cases hi : i < st.cnt - 1
        · rw [List.getElem_append_left (by simp; omega)]
          rw [List.getElem_drop, List.getElem_map, List.getElem_range]
          rw [Function.update_noteq (by omega)]
          rw [hht]
          congr 1
          omega
        · -- the last slot of the rotated window holds the new sample
          have hieq : i = st.cnt - 1 := by omega
          rw [List.getElem_append_right (by simp; omega)]
          have hx : (st.head + 1 + i) % 128 = st.head := by omega
          rw [hx, Function.update_same]
          simp
    have hlen' : (collectList st).length = 128 := by omega
    refine ⟨by rw [e2]; exact Nat.mod_lt _ (by norm_num), by rw [e1]; simp; omega,
      by rw [e3, e2, e1]; omega, ?_⟩
    · rw [hkey, hcol]
      have d1 : (l ++ [x]).length - 128 = (l.length - 128) + 1 := by simp; omega
      rw [d1, List.drop_append_of_le_length (by omega), ← List.drop_drop]

/-- The invariant holds after any submission history from the
initialised state. -/
theorem submitAll_inv (l : List MetricSample) :
    MInv l (submitAll metricsInit l) := by
  induction l using List.reverseRecOn with
  | nil =>
    refine ⟨by norm_num [metricsInit, submitAll], ?_, ?_, ?_⟩
    · simp [metricsInit, submitAll]
    · simp [metricsInit, submitAll]
    · simp [metricsInit, submitAll, collectList]
  | append_singleton t x ih =>
    have he : submitAll metricsInit (t ++ [x])
        = metrics_submit (submitAll metricsInit t) x := by
      simp [submitAll]
    rw [he]
    exact metrics_submit_inv t x _ ih

/-- An empty ring yields the all-zero aggregate. -/
theorem metrics_agg_of_empty (st : MetricsState) (h : st.cnt = 0) (c : Bool) :
    (metrics_get_aggregate st c).1 = ⟨0, 0, 0, 0, 0⟩ := by
  unfold metrics_get_aggregate collectList
  rw [h]
  simp

/-- The consume flag always leaves an empty ring behind. -/
theorem metrics_agg_consume_cnt (st : MetricsState) :
    ((metrics_get_aggregate st true).2).cnt = 0 := by
  unfold metrics_get_aggregate
  by_cases h : (collectList st).length = 0 <;> simp [h]

/-- C8.  Metrics ring-buffer overflow and consume semantics: after more
than 128 `metrics_submit` calls, the ring retains exactly the 128 most
recently submitted samples in submission order from `tail` to `head`
(the aggregation loop visits exactly `l.drop (l.length - 128)`);
`metrics_get_aggregate` then reports `count = 128` with averages that
are the exact means over those 128 samples; and after an aggregate call
with the consume flag, the buffer is empty and the next aggregate
returns `count = 0` with all averages zero. -/
theorem C8_metrics_ring (l : List MetricSample) (hlen : 128 < l.length) :
    collectList (submitAll metricsInit l) = l.drop (l.length - 128) ∧
    (metrics_get_aggregate (submitAll metricsInit l) true).1.count = 128 ∧
    (metrics_get_aggregate (submitAll metricsInit l) true).1.avg_workload
      = (((l.drop (l.length - 128)).map MetricSample.workload).sum : ℚ) / 128 ∧
    (metrics_get_aggregate (submitAll metricsInit l) true).1.avg_intensity
      = (((l.drop (l.length - 128)).map MetricSample.intensity).sum : ℚ) / 128 ∧
    (metrics_get_aggregate (submitAll metricsInit l) true).1.avg_duration_ms
      = (((l.drop (l.length - 128)).map MetricSample.duration_ms).sum : ℚ) / 128 ∧
    (metrics_get_aggregate
        ((metrics_get_aggregate (submitAll metricsInit l) true).2) true).1
      = ⟨0, 0, 0, 0, 0⟩ := by
  obtain ⟨htail, hcnt, hhead, hcol⟩ := submitAll_inv l
  have hclen : (collectList (submitAll metricsInit l)).length = 128 := by
    simp [collectList]
    omega
  have hne : ¬ (collectList (submitAll metricsInit l)).length = 0 := by omega
  refine ⟨hcol, ?_, ?_, ?_, ?_, ?_⟩
  · unfold metrics_get_aggregate
    simp only [hne, if_neg, if_false]
    exact hclen
  · unfold metrics_get_aggregate
    simp only [hne, if_neg, if_false]
    rw [hcol] at hclen ⊢
    rw [hclen]
    norm_num
  · unfold metrics_get_aggregate
    simp only [hne, if_neg, if_false]
    rw [hcol] at hclen ⊢
    rw [hclen]
    norm_num
  · unfold metrics_get_aggregate
    simp only [hne, if_neg, if_false]
    rw [hcol] at hclen ⊢
    rw [hclen]
    norm_num
  · exact metrics_agg_of_empty _ (metrics_agg_consume_cnt _) true

/-- Witness for C8: 129 numbered samples. -/
theorem C8_metrics_ring_witness :
    collectList (submitAll metricsInit
        ((List.range 129).map fun n => ⟨n, n, n, n⟩))
      = (((List.range 129).map fun n => (⟨n, n, n, n⟩ : MetricSample)).drop
          (((List.range 129).map fun n => (⟨n, n, n, n⟩ : MetricSample)).length
            - 128)) ∧
    (metrics_get_aggregate (submitAll metricsInit
        ((List.range 129).map fun n => ⟨n, n, n, n⟩)) true).1.count = 128 :=
  have h := C8_metrics_ring ((List.range 129).map fun n => ⟨n, n, n, n⟩)
    (by simp)
  ⟨h.1, h.2.1⟩

/-- C7.  Schedutil hysteresis: with `target_khz = 131000` (so
`current_target_percent = (131000 - 125000) * 100 / 139000 = 4`) and
clamped utilisation `util = 4`, the difference `|util - ctp| = 0 ≤ 5`,
so the claim (and the source's own comment, "only change if >5%
difference") says the proportional-tracking branch leaves `target_khz`
unchanged; but `current_target_percent - 5` underflows in `uint32_t`
to `2^32 - 1`, the `util < ctp - 5` disjunct fires, and the branch
rewrites `target_khz` to the mapped value 130560. -/
theorem C7_schedutil_hysteresis_underflow :
    sch_target_update 4 131000 = 130560 ∧
    (131000 - MIN_KHZ) * 100 / (MAX_KHZ - MIN_KHZ) = 4 ∧
    (130560 : Nat) ≠ 131000 := by
  refine ⟨by decide, by decide, by decide⟩

/-- C10.  The shell `set <mhz>` command never stores an out-of-range
target even under 32-bit overflow: `cmd_set` either leaves `target_khz`
unchanged or stores `khz = mhz * 1000 mod 2^32` with
`MIN_KHZ ≤ khz ≤ MAX_KHZ`; and the overflowing input `mhz = 4295093`
wraps to 125704, passes validation, and stores a frequency different
from `mhz * 1000`. -/
theorem C10_cmd_set_range :
    (∀ mhz t : Nat, cmd_set mhz t = t ∨
      (MIN_KHZ ≤ cmd_set mhz t ∧ cmd_set mhz t ≤ MAX_KHZ ∧
       cmd_set mhz t = mhz * 1000 % U32)) ∧
    cmd_set 4295093 125000 = 125704 ∧
    (125704 : Nat) ≠ 4295093 * 1000 ∧
    MIN_KHZ ≤ 125704 ∧ 125704 ≤ MAX_KHZ := by
  constructor
  · intro mhz t
    unfold cmd_set
    by_cases h : mhz * 1000 % U32 < MIN_KHZ ∨ mhz * 1000 % U32 > MAX_KHZ
    · left
      rw [if_pos h]
    · right
      rw [if_neg h]
      push_neg at h
      exact ⟨h.1, h.2, rfl⟩
  · exact ⟨by decide, by decide, by decide, by decide⟩

/-- Witness for C6: a concrete failing PLL set from boot. -/
theorem C6_pll_fail_clamp_witness :
    (ramp_step true (fun _ => true) (fun _ => false) bootState 130000).1.current_khz
      = bootState.current_khz ∧
    (ramp_step true (fun _ => true) (fun _ => false) bootState 130000).1.target_khz
      = bootState.current_khz ∧
    (ramp_step true (fun _ => true) (fun _ => false) bootState 130000).2.1 = true :=
  C6_pll_fail_clamp true (fun _ => true) (fun _ => false) bootState 130000
    (by decide) (by decide)

end RP2040
